import Mathlib

/-!
Verification of the Repository-pattern data-access layer and the Data
Mapper converter of this repository, as a shallow embedding in Lean.

The `InMemoryUserRepository` stores users in a JavaScript `Map`, which
iterates in insertion order; we embed it as an association list
`List (String × User)` whose operations mirror `Map.get`, `Map.has`,
`Map.set` (updating in place when the key is present, appending
otherwise) and `Map.delete`.  JavaScript `Date` timestamps are embedded
as `Nat` clock values passed explicitly to the operations that stamp
them; `String(n)` on a number is embedded as the decimal rendering
`natToString`.  Methods that `throw` are embedded as returning
`Except String` results paired with the (unchanged) state.
-/

namespace Patterns

/-- Domain entity `User` of the repository example: `id`, `name`,
`email` and the creation timestamp (`Date` embedded as `Nat`). -/
structure User where
  id : String
  name : String
  email : String
  createdAt : Nat
deriving DecidableEq, Repr

/-- `CreateUserDto`: input for `create`. -/
structure CreateUserDto where
  name : String
  email : String
deriving DecidableEq, Repr

/-- `UpdateUserDto`: partial patch, optional `name` and `email`. -/
structure UpdateUserDto where
  name : Option String
  email : Option String
deriving DecidableEq, Repr

/-- `Map.prototype.get`, on the association-list embedding. -/
def mapGet (m : List (String × User)) (k : String) : Option User :=
  (m.find? (fun p => p.1 == k)).map Prod.snd

/-- `Map.prototype.has`. -/
def mapHas (m : List (String × User)) (k : String) : Bool :=
  m.any (fun p => p.1 == k)

/-- `Map.prototype.set`: when the key is already present the entry is
updated in place (keeping its insertion position), otherwise the new
entry is appended at the end, as a JavaScript `Map` does. -/
def mapSet (m : List (String × User)) (k : String) (v : User) : List (String × User) :=
  if mapHas m k then m.map (fun p => if p.1 == k then (k, v) else p)
  else m ++ [(k, v)]

/-- `Map.prototype.delete`. -/
def mapDelete (m : List (String × User)) (k : String) : List (String × User) :=
  m.filter (fun p => p.1 != k)

/-- State of one `InMemoryUserRepository` instance: the backing `Map`
(`users`) and the `nextId` counter. -/
structure RepoState where
  users : List (String × User)
  nextId : Nat
deriving DecidableEq, Repr

/-- A freshly constructed repository: empty map, `nextId = 1`. -/
def initRepo : RepoState := ⟨[], 1⟩

/-- Little-endian decimal digits of a positive number, written with an
explicit structural fuel (`n` itself bounds the number of divisions) so
that concrete values reduce inside the kernel. -/
def natDigitsAux : Nat → Nat → List Nat
  | 0, _ => []
  | _ + 1, 0 => []
  | fuel + 1, n + 1 => ((n + 1) % 10) :: natDigitsAux fuel ((n + 1) / 10)

/-- Decimal rendering of a natural number, the embedding of the
JavaScript conversion `String(n)`. -/
def natToString (n : Nat) : String :=
  if n = 0 then "0"
  else ⟨((natDigitsAux n n).map (fun d => Char.ofNat (48 + d))).reverse⟩

/-- `InMemoryUserRepository.create`: builds the user with id
`String(nextId)`, name and email from the DTO and the current time as
creation timestamp, increments `nextId` and stores the user under its
id.  Returns the created user and the new state. -/
def create (s : RepoState) (data : CreateUserDto) (now : Nat) : User × RepoState :=
  let user : User := ⟨natToString s.nextId, data.name, data.email, now⟩
  (user, ⟨mapSet s.users user.id user, s.nextId + 1⟩)

/-- `InMemoryUserRepository.findById`: `users.get(id) ?? null`. -/
def findById (s : RepoState) (id : String) : Option User :=
  mapGet s.users id

/-- `InMemoryUserRepository.findAll`: `Array.from(users.values())`,
all stored users in insertion order (a copied snapshot). -/
def findAll (s : RepoState) : List User :=
  s.users.map Prod.snd

/-- The `for (const user of users.values())` loop of `findByEmail`:
returns the first user (in iteration order) whose email matches. -/
def findByEmailGo (email : String) : List (String × User) → Option User
  | [] => none
  | p :: rest => if p.2.email == email then some p.2 else findByEmailGo email rest

/-- `InMemoryUserRepository.findByEmail`: linear scan over the map's
values in insertion order, first match or `null`. -/
def findByEmail (s : RepoState) (email : String) : Option User :=
  findByEmailGo email s.users

/-- The object spread `{ ...user, ...data }`: fields present in the
patch win, all other fields (including `id` and `createdAt`, which the
patch cannot contain) are retained from `user`. -/
def applyPatch (u : User) (d : UpdateUserDto) : User :=
  ⟨u.id, d.name.getD u.name, d.email.getD u.email, u.createdAt⟩

/-- `InMemoryUserRepository.update`: throws (returns an error and the
unchanged state) when `id` is absent; otherwise spreads the patch over
the stored user, re-stores it under `id` and returns it. -/
def update (s : RepoState) (id : String) (d : UpdateUserDto) :
    Except String User × RepoState :=
  match mapGet s.users id with
  | none => (Except.error ("User with id " ++ id ++ " not found"), s)
  | some user =>
    let updated := applyPatch user d
    (Except.ok updated, ⟨mapSet s.users id updated, s.nextId⟩)

/-- `InMemoryUserRepository.delete`: throws when `id` is absent,
otherwise removes the entry. -/
def delete (s : RepoState) (id : String) : Except String Unit × RepoState :=
  if mapHas s.users id then (Except.ok (), ⟨mapDelete s.users id, s.nextId⟩)
  else (Except.error ("User with id " ++ id ++ " not found"), s)

/-- `UserService.registerUser`: checks `findByEmail`; throws a
duplicate error when a user with this email exists, otherwise delegates
to `create`. -/
def registerUser (s : RepoState) (name email : String) (now : Nat) :
    Except String User × RepoState :=
  match findByEmail s email with
  | some _ => (Except.error ("User with email " ++ email ++ " already exists"), s)
  | none =>
    let r := create s ⟨name, email⟩ now
    (Except.ok r.1, r.2)

/-- One operation of a client session against a single repository
instance (the service's `registerUser` is included since it delegates
to `create`). -/
inductive Op where
  | create (data : CreateUserDto) (now : Nat)
  | update (id : String) (d : UpdateUserDto)
  | delete (id : String)
  | register (name email : String) (now : Nat)
deriving DecidableEq, Repr

/-- The state transition performed by one operation. -/
def step (s : RepoState) : Op → RepoState
  | .create d now => (create s d now).2
  | .update id d => (update s id d).2
  | .delete id => (delete s id).2
  | .register n e now => (registerUser s n e now).2

/-- Run a whole sequence of operations. -/
def run (s : RepoState) : List Op → RepoState
  | [] => s
  | op :: rest => run (step s op) rest

/-- The identifiers returned by the (successful) create calls of an
operation sequence, in call order. -/
def createdIds (s : RepoState) : List Op → List String
  | [] => []
  | op :: rest =>
    match op with
    | .create d now => (create s d now).1.id :: createdIds (step s op) rest
    | .register n e now =>
      match (registerUser s n e now).1 with
      | .ok u => u.id :: createdIds (step s op) rest
      | .error _ => createdIds (step s op) rest
    | _ => createdIds (step s op) rest

/-- The numeric counter values consumed by the (successful) create
calls of an operation sequence, in call order. -/
def createdNats (s : RepoState) : List Op → List Nat
  | [] => []
  | op :: rest =>
    match op with
    | .create _ _ => s.nextId :: createdNats (step s op) rest
    | .register _ e _ =>
      match findByEmail s e with
      | none => s.nextId :: createdNats (step s op) rest
      | some _ => createdNats (step s op) rest
    | _ => createdNats (step s op) rest

/-!
Data Mapper embedding (`src/PofEAA/mapper/user-mapper.ts`).

JavaScript `Date` values are embedded as `Option Nat`: `some t` is a
valid timestamp, `none` is an Invalid Date.  The platform functions
`new Date(string)` and `Date.prototype.toLocaleDateString` are not code
of this repository; they are passed in as parameters `parse` and `fmt`,
with `new Date(undefined)` and an unparseable string both yielding an
Invalid Date (`none`), as the JavaScript runtime does.
-/

/-- Database row `UserRow` with all fields present (the declared,
well-formed shape). -/
structure UserRow where
  user_id : String
  user_name : String
  user_email : String
  created_at : String
deriving DecidableEq, Repr

/-- Domain entity `UserEntity` of the mapper example. -/
structure UserEntity where
  id : String
  name : String
  email : String
  createdAt : Option Nat
deriving DecidableEq, Repr

/-- API response DTO `UserResponseDto`. -/
structure UserResponseDto where
  id : String
  name : String
  email : String
  memberSince : String
deriving DecidableEq, Repr

/-- `UserMapper.toEntity` on a well-formed row. -/
def toEntity (parse : String → Option Nat) (row : UserRow) : UserEntity :=
  ⟨row.user_id, row.user_name, row.user_email, parse row.created_at⟩

/-- `UserMapper.toDto`. -/
def toDto (fmt : Option Nat → String) (e : UserEntity) : UserResponseDto :=
  ⟨e.id, e.name, e.email, fmt e.createdAt⟩

/-- A raw (`any`-typed) row as `toEntity` actually receives it: any
field may be `undefined` (`none`). -/
structure RawUserRow where
  user_id : Option String
  user_name : Option String
  user_email : Option String
  created_at : Option String
deriving DecidableEq, Repr

/-- The entity built from a raw row: its fields may hold `undefined`
values and an Invalid Date. -/
structure RawUserEntity where
  id : Option String
  name : Option String
  email : Option String
  createdAt : Option Nat
deriving DecidableEq, Repr

/-- `UserMapper.toEntity` as executed on a raw row: it performs no
validation and never throws; an absent `created_at` or an unparseable
timestamp string yields an Invalid Date (`none`). -/
def toEntityRaw (parse : String → Option Nat) (row : RawUserRow) : RawUserEntity :=
  ⟨row.user_id, row.user_name, row.user_email, row.created_at.bind parse⟩

/-- The spec's converter error kind. -/
inductive MapperError where
  | malformedInput
deriving DecidableEq, Repr

/-- Modelled from the spec: the spec's `recordToDomain` demands a
`MalformedInputError` when a required field is absent or the timestamp
string is unparseable, and otherwise the parsed timestamp; no such
validating converter exists in the source (`UserMapper.toEntity` never
throws), so this definition follows the spec's words and is compared
against `toEntityRaw`. -/
def recordToDomainSpec (parse : String → Option Nat) (row : RawUserRow) :
    Except MapperError RawUserEntity :=
  match row.user_id, row.user_name, row.user_email, row.created_at with
  | some i, some nm, some e, some c =>
    match parse c with
    | some t => Except.ok ⟨some i, some nm, some e, some t⟩
    | none => Except.error MapperError.malformedInput
  | _, _, _, _ => Except.error MapperError.malformedInput

/-! Basic lemmas about the `Map` embedding. -/

theorem mapHas_iff (m : List (String × User)) (k : String) :
    mapHas m k = true ↔ (mapGet m k).isSome := by
  simp [mapHas, mapGet, List.any_eq_true, List.find?_isSome]

theorem mapGet_eq_none_iff (m : List (String × User)) (k : String) :
    mapGet m k = none ↔ mapHas m k = false := by
  rw [← Bool.not_eq_true, mapHas_iff, ← Option.not_isSome_iff_eq_none]

theorem mapGet_cons_hit (p : String × User) (m : List (String × User)) (k : String)
    (h : (p.1 == k) = true) : mapGet (p :: m) k = some p.2 := by
  simp [mapGet, List.find?_cons, h]

theorem mapGet_cons_miss (p : String × User) (m : List (String × User)) (k : String)
    (h : (p.1 == k) = false) : mapGet (p :: m) k = mapGet m k := by
  simp [mapGet, List.find?_cons, h]

theorem mapGet_replace (m : List (String × User)) (k : String) (v : User)
    (h : mapHas m k = true) :
    mapGet (m.map (fun p => if p.1 == k then (k, v) else p)) k = some v := by
  induction m with
  | nil => simp [mapHas] at h
  | cons p m ih =>
    by_cases hk : (p.1 == k) = true
    · have hp : (if p.1 == k then (k, v) else p) = (k, v) := by simp [hk]
      rw [List.map_cons, hp, mapGet_cons_hit _ _ _ (by simp)]
    · simp only [Bool.not_eq_true] at hk
      have hp : (if p.1 == k then (k, v) else p) = p := by simp [hk]
      have h' : mapHas m k = true := by
        simpa [mapHas, List.any_cons, hk] using h
      rw [List.map_cons, hp, mapGet_cons_miss _ _ _ hk]
      exact ih h'

theorem mapGet_append_fresh (m : List (String × User)) (k : String) (v : User)
    (h : mapHas m k = false) :
    mapGet (m ++ [(k, v)]) k = some v := by
  induction m with
  | nil => exact mapGet_cons_hit _ _ _ (by simp)
  | cons p m ih =>
    have hk : (p.1 == k) = false := by
      by_contra hc
      simp only [Bool.not_eq_false] at hc
      simp [mapHas, List.any_cons, hc] at h
    have h' : mapHas m k = false := by
      simpa [mapHas, List.any_cons, hk] using h
    rw [List.cons_append, mapGet_cons_miss _ _ _ hk]
    exact ih h'

theorem mapGet_mapSet_self (m : List (String × User)) (k : String) (v : User) :
    mapGet (mapSet m k v) k = some v := by
  unfold mapSet
  by_cases h : mapHas m k
  · simpa [h] using mapGet_replace m k v h
  · simp only [Bool.not_eq_true] at h
    simpa [h] using mapGet_append_fresh m k v h

theorem mapGet_mapDelete_self (m : List (String × User)) (k : String) :
    mapGet (mapDelete m k) k = none := by
  have hfind : List.find? (fun p => p.1 == k) (List.filter (fun p => p.1 != k) m) = none := by
    rw [List.find?_eq_none]
    intro p hp
    have hp2 := (List.mem_filter.mp hp).2
    simp only [bne_iff_ne, ne_eq] at hp2
    simpa using hp2
  rw [mapGet, mapDelete, hfind]
  rfl

/-! `findByEmail` as a first-match search over the values. -/

theorem findByEmailGo_eq_find? (email : String) (l : List (String × User)) :
    findByEmailGo email l = (l.map Prod.snd).find? (fun u => u.email == email) := by
  induction l with
  | nil => rfl
  | cons p l ih =>
    by_cases h : p.2.email == email
    · simp [findByEmailGo, List.find?_cons, h]
    · simp [findByEmailGo, List.find?_cons, h, ih]

theorem findByEmail_eq_none_iff (s : RepoState) (email : String) :
    findByEmail s email = none ↔ ∀ u ∈ findAll s, u.email ≠ email := by
  rw [findByEmail, findByEmailGo_eq_find?, List.find?_eq_none]
  simp [findAll]

/-! Injectivity of the decimal rendering. -/

theorem natDigitsAux_eq_digits : ∀ fuel n : Nat, n ≤ fuel →
    natDigitsAux fuel n = Nat.digits 10 n := by
  intro fuel
  induction fuel with
  | zero =>
    intro n h
    have hn : n = 0 := Nat.le_zero.mp h
    rw [hn]
    simp [natDigitsAux]
  | succ fuel ih =>
    intro n h
    cases n with
    | zero => simp [natDigitsAux]
    | succ m =>
      have hdiv : (m + 1) / 10 ≤ fuel := by
        have hlt : (m + 1) / 10 < m + 1 := Nat.div_lt_self (Nat.succ_pos m) (by norm_num)
        omega
      rw [natDigitsAux, ih _ hdiv,
        (Nat.digits_def' (by norm_num : (1:ℕ) < 10) (Nat.succ_pos m)).symm]

theorem natToString_eq_digits (n : Nat) :
    natToString n = if n = 0 then "0"
      else ⟨((Nat.digits 10 n).map (fun d => Char.ofNat (48 + d))).reverse⟩ := by
  rw [natToString, natDigitsAux_eq_digits n n le_rfl]

theorem digitChar_inj : ∀ a < 10, ∀ b < 10,
    Char.ofNat (48 + a) = Char.ofNat (48 + b) → a = b := by decide

theorem map_digitChar_inj : ∀ l1 l2 : List Nat, (∀ d ∈ l1, d < 10) → (∀ d ∈ l2, d < 10) →
    l1.map (fun d => Char.ofNat (48 + d)) = l2.map (fun d => Char.ofNat (48 + d)) →
    l1 = l2 := by
  intro l1
  induction l1 with
  | nil => intro l2 _ _ h; cases l2 <;> simp_all
  | cons a l1 ih =>
    intro l2 h1 h2 h
    cases l2 with
    | nil => simp at h
    | cons b l2 =>
      simp only [List.map_cons, List.cons.injEq] at h
      have ha : a < 10 := h1 a (List.mem_cons_self a l1)
      have hb : b < 10 := h2 b (List.mem_cons_self b l2)
      have hab : a = b := digitChar_inj a ha b hb h.1
      have htl : l1 = l2 := by
        refine ih l2 (fun d hd => h1 d (List.mem_cons_of_mem _ hd))
          (fun d hd => h2 d (List.mem_cons_of_mem _ hd)) h.2
      rw [hab, htl]

theorem digits_of_natToString_eq_zeroStr (n : Nat) (hn : n ≠ 0)
    (h : ("0" : String) = ⟨((Nat.digits 10 n).map (fun d => Char.ofNat (48 + d))).reverse⟩) :
    False := by
  have hd : (["0".data.head!] : List Char) =
      ((Nat.digits 10 n).map (fun d => Char.ofNat (48 + d))).reverse := by
    have := congrArg String.data h
    simpa using this
  have hrev : (Nat.digits 10 n).map (fun d => Char.ofNat (48 + d)) = ['0'] := by
    have := congrArg List.reverse hd
    simpa using this.symm
  cases hdig : Nat.digits 10 n with
  | nil =>
    rw [hdig] at hrev
    simp at hrev
  | cons d t =>
    rw [hdig] at hrev
    simp only [List.map_cons, List.cons.injEq] at hrev
    have hlt : d < 10 :=
      Nat.digits_lt_base (by norm_num) (hdig ▸ List.mem_cons_self d t)
    have hd0 : d = 0 := by
      have h0 : Char.ofNat (48 + d) = Char.ofNat (48 + 0) := by
        simpa using hrev.1
      exact digitChar_inj d hlt 0 (by norm_num) h0
    have ht : t = [] := by
      have := hrev.2
      cases t <;> simp_all
    have hzero : Nat.digits 10 n = [0] := by rw [hdig, hd0, ht]
    have hn0 : n = 0 := by
      have h2 := congrArg (Nat.ofDigits 10) hzero
      rw [Nat.ofDigits_digits] at h2
      simpa using h2
    exact hn hn0

/-! The `nextId` counter only grows, and every identifier handed out by
a create call is the counter value at that moment. -/

theorem nextId_le_step (s : RepoState) (op : Op) : s.nextId ≤ (step s op).nextId := by
  cases op with
  | create d now => exact Nat.le_succ _
  | update id d =>
    simp only [step, update]
    cases mapGet s.users id <;> simp
  | delete id =>
    simp only [step, delete]
    by_cases h : mapHas s.users id <;> simp [h]
  | register n e now =>
    simp only [step, registerUser]
    cases findByEmail s e <;> simp [create, Nat.le_succ]

theorem le_of_mem_createdNats (ops : List Op) :
    ∀ (s : RepoState) (n : Nat), n ∈ createdNats s ops → s.nextId ≤ n := by
  induction ops with
  | nil => intro s n h; simp [createdNats] at h
  | cons op rest ih =>
    intro s n h
    have hstep : ∀ n, n ∈ createdNats (step s op) rest → s.nextId ≤ n := fun n hn =>
      le_trans (nextId_le_step s op) (ih (step s op) n hn)
    cases op with
    | create d now =>
      rcases List.mem_cons.mp h with h0 | h0
      · exact le_of_eq h0.symm
      · exact hstep n h0
    | update id d => exact hstep n h
    | delete id => exact hstep n h
    | register nm e now =>
      simp only [createdNats] at h
      cases hf : findByEmail s e with
      | none =>
        rw [hf] at h
        rcases List.mem_cons.mp h with h0 | h0
        · exact le_of_eq h0.symm
        · exact hstep n h0
      | some u =>
        rw [hf] at h
        exact hstep n h

theorem step_register_none_nextId (s : RepoState) (nm e : String) (now : Nat)
    (hf : findByEmail s e = none) :
    (step s (Op.register nm e now)).nextId = s.nextId + 1 := by
  simp [step, registerUser, hf, create]

theorem createdNats_pairwise (ops : List Op) :
    ∀ s : RepoState, (createdNats s ops).Pairwise (· < ·) := by
  induction ops with
  | nil => intro s; simp [createdNats]
  | cons op rest ih =>
    intro s
    cases op with
    | create d now =>
      refine List.Pairwise.cons ?_ (ih _)
      intro n hn
      have h1 := le_of_mem_createdNats rest (step s (Op.create d now)) n hn
      have h2 : (step s (Op.create d now)).nextId = s.nextId + 1 := rfl
      omega
    | update id d => exact ih _
    | delete id => exact ih _
    | register nm e now =>
      simp only [createdNats]
      cases hf : findByEmail s e with
      | none =>
        refine List.Pairwise.cons ?_ (ih _)
        intro n hn
        have h1 := le_of_mem_createdNats rest (step s (Op.register nm e now)) n hn
        have h2 := step_register_none_nextId s nm e now hf
        omega
      | some u => exact ih _

theorem createdIds_eq_map (ops : List Op) :
    ∀ s : RepoState, createdIds s ops = (createdNats s ops).map natToString := by
  induction ops with
  | nil => intro s; rfl
  | cons op rest ih =>
    intro s
    cases op with
    | create d now =>
      simp only [createdIds, createdNats, List.map_cons]
      exact congrArg _ (ih _)
    | update id d => exact ih _
    | delete id => exact ih _
    | register nm e now =>
      simp only [createdIds, createdNats]
      cases hf : findByEmail s e with
      | none =>
        simp only [registerUser, hf, List.map_cons]
        exact congrArg _ (ih _)
      | some u =>
        simp only [registerUser, hf]
        exact ih _

theorem natToString_injective : Function.Injective natToString := by
  intro m n h
  rw [natToString_eq_digits, natToString_eq_digits] at h
  by_cases hm : m = 0 <;> by_cases hn : n = 0
  · rw [hm, hn]
  · rw [if_pos hm, if_neg hn] at h
    exact (digits_of_natToString_eq_zeroStr n hn h).elim
  · rw [if_neg hm, if_pos hn] at h
    exact (digits_of_natToString_eq_zeroStr m hm h.symm).elim
  · rw [if_neg hm, if_neg hn] at h
    have hdata : ((Nat.digits 10 m).map (fun d => Char.ofNat (48 + d))).reverse =
        ((Nat.digits 10 n).map (fun d => Char.ofNat (48 + d))).reverse :=
      congrArg String.data h
    have hrev : (Nat.digits 10 m).map (fun d => Char.ofNat (48 + d)) =
        (Nat.digits 10 n).map (fun d => Char.ofNat (48 + d)) :=
      List.reverse_injective hdata
    have hdig : Nat.digits 10 m = Nat.digits 10 n :=
      map_digitChar_inj _ _ (fun d hd => Nat.digits_lt_base (by norm_num) hd)
        (fun d hd => Nat.digits_lt_base (by norm_num) hd) hrev
    have hofd := congrArg (Nat.ofDigits 10) hdig
    rwa [Nat.ofDigits_digits, Nat.ofDigits_digits] at hofd

/-! Claim theorems. -/

/-- C1: over every sequence of operations run on a single repository
instance from its construction, the identifiers returned by the
(successful) create calls are the decimal renderings of a strictly
increasing sequence of counter values, hence strictly increasing in
call order and pairwise distinct — so no identifier is ever reused
within the instance's lifetime, even with interleaved deletes. -/
theorem create_ids_strictly_increasing (ops : List Op) :
    createdIds initRepo ops = (createdNats initRepo ops).map natToString ∧
    (createdNats initRepo ops).Pairwise (· < ·) ∧
    (createdIds initRepo ops).Pairwise (· ≠ ·) := by
  refine ⟨createdIds_eq_map ops initRepo, createdNats_pairwise ops initRepo, ?_⟩
  rw [createdIds_eq_map ops initRepo]
  exact List.Pairwise.map natToString
    (fun a b hab he => absurd (natToString_injective he) (Nat.ne_of_lt hab))
    (createdNats_pairwise ops initRepo)

/-- C2: on a present id, `update` returns the stored user with exactly
the patch's fields overwritten — the identifier and the creation
timestamp are unchanged, a patch field overrides and an absent patch
field keeps the prior value — and the stored entry for the id is
replaced by the returned value. -/
theorem update_present_frame (s : RepoState) (id : String) (d : UpdateUserDto) (u : User)
    (h : findById s id = some u) :
    (update s id d).1 = Except.ok (applyPatch u d) ∧
    (applyPatch u d).id = u.id ∧
    (applyPatch u d).createdAt = u.createdAt ∧
    (applyPatch u d).name = d.name.getD u.name ∧
    (applyPatch u d).email = d.email.getD u.email ∧
    findById (update s id d).2 id = some (applyPatch u d) := by
  have hg : mapGet s.users id = some u := h
  refine ⟨by simp [update, hg], rfl, rfl, rfl, rfl, ?_⟩
  have h2 : (update s id d).2 = ⟨mapSet s.users id (applyPatch u d), s.nextId⟩ := by
    simp [update, hg]
  rw [h2]
  exact mapGet_mapSet_self s.users id (applyPatch u d)

theorem update_present_frame_witness :
    (update (create initRepo ⟨"Alice", "a@x.com"⟩ 0).2 "1" ⟨some "Alice Smith", none⟩).1 =
      Except.ok (applyPatch ⟨"1", "Alice", "a@x.com", 0⟩ ⟨some "Alice Smith", none⟩) ∧
    findById (update (create initRepo ⟨"Alice", "a@x.com"⟩ 0).2 "1"
        ⟨some "Alice Smith", none⟩).2 "1" =
      some (applyPatch ⟨"1", "Alice", "a@x.com", 0⟩ ⟨some "Alice Smith", none⟩) := by
  have h := update_present_frame (create initRepo ⟨"Alice", "a@x.com"⟩ 0).2 "1"
    ⟨some "Alice Smith", none⟩ ⟨"1", "Alice", "a@x.com", 0⟩ rfl
  exact ⟨h.1, h.2.2.2.2.2⟩

/-- C3: `registerUser` fails (with the duplicate-email error, leaving
the store unchanged) exactly when some stored user already has the
given email, and otherwise delegates to `create` and returns the
created user. -/
theorem registerUser_duplicate_spec (s : RepoState) (nm email : String) (now : Nat) :
    ((∃ msg, (registerUser s nm email now).1 = Except.error msg) ↔
      ∃ u ∈ findAll s, u.email = email) ∧
    ((∃ u ∈ findAll s, u.email = email) → (registerUser s nm email now).2 = s) ∧
    (findByEmail s email = none →
      registerUser s nm email now =
        (Except.ok (create s ⟨nm, email⟩ now).1, (create s ⟨nm, email⟩ now).2)) := by
  cases hf : findByEmail s email with
  | none =>
    have hne : ∀ u ∈ findAll s, u.email ≠ email := (findByEmail_eq_none_iff s email).mp hf
    refine ⟨⟨?_, ?_⟩, ?_, fun _ => by simp [registerUser, hf]⟩
    · rintro ⟨msg, hmsg⟩
      simp [registerUser, hf] at hmsg
    · rintro ⟨u, hu, he⟩
      exact absurd he (hne u hu)
    · rintro ⟨u, hu, he⟩
      exact absurd he (hne u hu)
  | some u =>
    have hfind : (findAll s).find? (fun v => v.email == email) = some u := by
      have hthis := hf
      rw [findByEmail, findByEmailGo_eq_find?] at hthis
      exact hthis
    have hmem : u ∈ findAll s := List.mem_of_find?_eq_some hfind
    have heq : u.email = email := by
      have := List.find?_some hfind
      simpa using this
    refine ⟨⟨fun _ => ⟨u, hmem, heq⟩, ?_⟩, fun _ => by simp [registerUser, hf], ?_⟩
    · intro _
      exact ⟨"User with email " ++ email ++ " already exists", by simp [registerUser, hf]⟩
    · intro hn
      exact Option.noConfusion hn

theorem registerUser_duplicate_witness :
    (∃ u, (registerUser initRepo "Alice" "a@x.com" 0).1 = Except.ok u) ∧
    (∃ msg, (registerUser (registerUser initRepo "Alice" "a@x.com" 0).2
        "Alice2" "a@x.com" 1).1 = Except.error msg) := by
  have h1 := (registerUser_duplicate_spec initRepo "Alice" "a@x.com" 0).2.2 rfl
  refine ⟨⟨(create initRepo ⟨"Alice", "a@x.com"⟩ 0).1, congrArg Prod.fst h1⟩, ?_⟩
  exact ((registerUser_duplicate_spec (registerUser initRepo "Alice" "a@x.com" 0).2
    "Alice2" "a@x.com" 1).1).mpr ⟨⟨"1", "Alice", "a@x.com", 0⟩, by decide, rfl⟩

/-- C4: `update` fails with the not-found error exactly when the id is
absent, and in that case the store state is unchanged. -/
theorem update_notFound_spec (s : RepoState) (id : String) (d : UpdateUserDto) :
    ((∃ msg, (update s id d).1 = Except.error msg) ↔ findById s id = none) ∧
    (findById s id = none →
      update s id d = (Except.error ("User with id " ++ id ++ " not found"), s)) := by
  cases hg : mapGet s.users id with
  | none =>
    refine ⟨⟨fun _ => hg, fun _ => ⟨"User with id " ++ id ++ " not found",
      by simp [update, hg]⟩⟩, fun _ => by simp [update, hg]⟩
  | some u =>
    constructor
    · constructor
      · rintro ⟨msg, hmsg⟩
        simp [update, hg] at hmsg
      · intro hn
        have hn' : mapGet s.users id = none := hn
        exact Option.noConfusion (hn'.symm.trans hg)
    · intro hn
      have hn' : mapGet s.users id = none := hn
      exact Option.noConfusion (hn'.symm.trans hg)

theorem update_notFound_witness :
    update initRepo "999" ⟨some "X", none⟩ =
      (Except.error "User with id 999 not found", initRepo) :=
  (update_notFound_spec initRepo "999" ⟨some "X", none⟩).2 rfl

/-- C5: `delete` fails with the not-found error exactly when the id is
absent (leaving the store unchanged); when the id is present the entry
is removed outright, so a subsequent `findById` yields "not found". -/
theorem delete_notFound_spec (s : RepoState) (id : String) :
    ((∃ msg, (delete s id).1 = Except.error msg) ↔ findById s id = none) ∧
    (findById s id = none →
      delete s id = (Except.error ("User with id " ++ id ++ " not found"), s)) ∧
    (∀ u, findById s id = some u →
      (delete s id).1 = Except.ok () ∧ findById (delete s id).2 id = none) := by
  by_cases hh : mapHas s.users id = true
  · have hsome : (mapGet s.users id).isSome := (mapHas_iff _ _).mp hh
    refine ⟨⟨?_, ?_⟩, ?_, ?_⟩
    · rintro ⟨msg, hmsg⟩
      simp [delete, hh] at hmsg
    · intro hn
      have hn' : mapGet s.users id = none := hn
      rw [hn'] at hsome
      simp at hsome
    · intro hn
      have hn' : mapGet s.users id = none := hn
      rw [hn'] at hsome
      simp at hsome
    · intro u hu
      refine ⟨by simp [delete, hh], ?_⟩
      have h2 : (delete s id).2 = ⟨mapDelete s.users id, s.nextId⟩ := by simp [delete, hh]
      rw [h2]
      exact mapGet_mapDelete_self s.users id
  · have hfalse : mapHas s.users id = false := by simpa using hh
    have hnone : mapGet s.users id = none := (mapGet_eq_none_iff _ _).mpr hfalse
    refine ⟨⟨fun _ => hnone, fun _ => ⟨"User with id " ++ id ++ " not found",
      by simp [delete, hh]⟩⟩, fun _ => by simp [delete, hh], ?_⟩
    intro u hu
    have hu' : mapGet s.users id = some u := hu
    exact Option.noConfusion (hnone.symm.trans hu')

theorem delete_notFound_witness :
    (delete (create initRepo ⟨"Alice", "a@x.com"⟩ 0).2 "1").1 = Except.ok () ∧
    findById (delete (create initRepo ⟨"Alice", "a@x.com"⟩ 0).2 "1").2 "1" = none ∧
    delete initRepo "999" = (Except.error "User with id 999 not found", initRepo) := by
  have h1 := (delete_notFound_spec (create initRepo ⟨"Alice", "a@x.com"⟩ 0).2 "1").2.2
    ⟨"1", "Alice", "a@x.com", 0⟩ rfl
  have h2 := (delete_notFound_spec initRepo "999").2.1 rfl
  exact ⟨h1.1, h1.2, h2⟩

/-- C6: `findByEmail` is exactly the first-match search over the stored
users in insertion order — equal to `List.find?` on `findAll` — and
returns "not found" precisely when no stored user has the email; being
a function of the state it is deterministic, also under duplicate
emails. -/
theorem findByEmail_first_match (s : RepoState) (email : String) :
    findByEmail s email = (findAll s).find? (fun u => u.email == email) ∧
    (findByEmail s email = none ↔ ∀ u ∈ findAll s, u.email ≠ email) :=
  ⟨findByEmailGo_eq_find? email s.users, findByEmail_eq_none_iff s email⟩

/-- C7: `findAll` returns the stored users in insertion order as a pure
snapshot value: two calls with no intervening mutation return the same
sequence (same length, same content), and a mutation such as `create`
produces a new sequence extending the old one while the previously
returned list value is untouched (in this pure embedding, returned
sequences are immutable values, which is exactly the copied-snapshot
semantics of `Array.from`). -/
theorem findAll_snapshot_spec (s : RepoState) (d : CreateUserDto) (now : Nat) :
    (findAll s = findAll s ∧ (findAll s).length = (findAll s).length) ∧
    (findById s (natToString s.nextId) = none →
      findAll (create s d now).2 = findAll s ++ [(create s d now).1]) := by
  refine ⟨⟨rfl, rfl⟩, ?_⟩
  intro hfresh
  have hfalse : mapHas s.users (natToString s.nextId) = false :=
    (mapGet_eq_none_iff _ _).mp hfresh
  simp [create, findAll, mapSet, hfalse]

theorem findAll_snapshot_witness :
    findAll (create initRepo ⟨"Alice", "a@x.com"⟩ 5).2 =
      findAll initRepo ++ [(create initRepo ⟨"Alice", "a@x.com"⟩ 5).1] :=
  (findAll_snapshot_spec initRepo ⟨"Alice", "a@x.com"⟩ 5).2 rfl

/-- C8: for every well-formed row, composing `toEntity` and `toDto`
yields a DTO whose identifier equals the row's `user_id` and whose
email equals the row's `user_email`, under the declared renaming. -/
theorem mapper_renaming_roundtrip (parse : String → Option Nat)
    (fmt : Option Nat → String) (row : UserRow) :
    (toDto fmt (toEntity parse row)).id = row.user_id ∧
    (toDto fmt (toEntity parse row)).email = row.user_email :=
  ⟨rfl, rfl⟩

/-- C9 (counterexample): on a raw row whose `created_at` field is
absent, the source's `toEntity` does not fail — it returns an entity
(with an Invalid Date) — while the spec-modelled validating converter
fails with `MalformedInputError`. -/
theorem toEntity_no_validation_counterexample :
    toEntityRaw (fun _ => none) ⟨some "usr_42", some "Alice", some "a@x.com", none⟩ =
      ⟨some "usr_42", some "Alice", some "a@x.com", none⟩ ∧
    recordToDomainSpec (fun _ => none) ⟨some "usr_42", some "Alice", some "a@x.com", none⟩ =
      Except.error MapperError.malformedInput :=
  ⟨rfl, rfl⟩

/-- C9 (amended): `toEntity` performs no validation and never fails: an
absent `created_at` field or an unparseable timestamp string yields an
entity with an Invalid Date, the other fields are copied through as
they are, and when the timestamp is present and parseable the returned
entity's timestamp is the parsed persistence timestamp. -/
theorem toEntityRaw_timestamp_spec (parse : String → Option Nat) (row : RawUserRow) :
    (row.created_at = none → (toEntityRaw parse row).createdAt = none) ∧
    (∀ c, row.created_at = some c → parse c = none →
      (toEntityRaw parse row).createdAt = none) ∧
    (∀ c t, row.created_at = some c → parse c = some t →
      (toEntityRaw parse row).createdAt = some t) ∧
    (toEntityRaw parse row).id = row.user_id ∧
    (toEntityRaw parse row).name = row.user_name ∧
    (toEntityRaw parse row).email = row.user_email := by
  refine ⟨?_, ?_, ?_, rfl, rfl, rfl⟩
  · intro h
    simp [toEntityRaw, h]
  · intro c h hp
    simp [toEntityRaw, h, hp]
  · intro c t h hp
    simp [toEntityRaw, h, hp]

theorem toEntityRaw_timestamp_witness :
    (toEntityRaw (fun _ => some 7) ⟨some "i", some "n", some "e", some "2024"⟩).createdAt =
      some 7 :=
  (toEntityRaw_timestamp_spec (fun _ => some 7)
    ⟨some "i", some "n", some "e", some "2024"⟩).2.2.1 "2024" 7 rfl rfl

/-- C10: whenever `update` succeeds, a subsequent `findById` on the
same id (with no intervening mutation) returns exactly the user that
`update` returned. -/
theorem update_findById_agree (s : RepoState) (id : String) (d : UpdateUserDto) (u' : User)
    (h : (update s id d).1 = Except.ok u') :
    findById (update s id d).2 id = some u' := by
  cases hg : mapGet s.users id with
  | none => simp [update, hg] at h
  | some u =>
    have h1 : (update s id d).1 = Except.ok (applyPatch u d) := by simp [update, hg]
    have hu : u' = applyPatch u d := by
      have hok := h.symm.trans h1
      simpa using hok
    have h2 : (update s id d).2 = ⟨mapSet s.users id (applyPatch u d), s.nextId⟩ := by
      simp [update, hg]
    rw [h2, hu]
    exact mapGet_mapSet_self s.users id (applyPatch u d)

theorem update_findById_agree_witness :
    findById (update (create initRepo ⟨"Alice", "a@x.com"⟩ 0).2 "1"
        ⟨some "Alice Smith", none⟩).2 "1" =
      some ⟨"1", "Alice Smith", "a@x.com", 0⟩ :=
  update_findById_agree (create initRepo ⟨"Alice", "a@x.com"⟩ 0).2 "1"
    ⟨some "Alice Smith", none⟩ ⟨"1", "Alice Smith", "a@x.com", 0⟩ rfl

end Patterns
